import Mathlib

/-!
# ExpensePro: verification of the expense-tracking application core

A shallow embedding of the data model and the state-mutating handlers of
the ExpensifyPro application (`src/App.tsx`, `src/services/geminiService.ts`,
type declarations in `src/unnamed/part_001`), together with proofs of the
specified properties: aggregate balance, effective-role resolution, the
transaction approval workflow, account-membership invariants, filtering and
sorting of the dashboard transaction list, and the error behaviour of the
external AI calls.

Conventions of the embedding:
* JS strings are `String`, JS numbers used as amounts are `Int`, JS arrays
  are `List`.
* The string enums of the source become inductive types, with explicit
  string views where the code compares an enum against a raw filter string.
* Handlers that mutate React state via `set...(prev => ...)` become pure
  functions `state → state`.
* Operations that are only reachable through guarded UI elements (buttons
  rendered conditionally) are modelled twice: the raw handler, and the
  user-triggerable operation that includes the render-time guard of its
  call sites; each guard cites the lines of `src/App.tsx` it comes from.
-/

namespace ExpensePro

/-- `TransactionType` enum (src/unnamed/part_001 lines 1-4). -/
inductive TransactionType where
  | CREDIT
  | DEBIT
deriving DecidableEq, Repr

/-- `TransactionStatus` enum (src/unnamed/part_001 lines 6-10). -/
inductive TransactionStatus where
  | PENDING
  | APPROVED
  | REJECTED
deriving DecidableEq, Repr

/-- `PaymentMode` enum (src/unnamed/part_001 lines 12-15). -/
inductive PaymentMode where
  | ONLINE
  | CASH
deriving DecidableEq, Repr

/-- `MemberRole` enum (src/unnamed/part_001 lines 17-21). -/
inductive MemberRole where
  | VIEWER
  | EDITOR
  | OWNER
deriving DecidableEq, Repr

/-- The string value of a `TransactionType`, used where the code compares a
transaction's type against a raw filter string (`t.type === dashboardTypeFilter`). -/
def TransactionType.toStr : TransactionType → String
  | .CREDIT => "CREDIT"
  | .DEBIT => "DEBIT"

/-- The string value of a `PaymentMode`, used where the code compares a
transaction's mode against a raw filter string (`t.paymentMode === dashboardModeFilter`). -/
def PaymentMode.toStr : PaymentMode → String
  | .ONLINE => "ONLINE"
  | .CASH => "CASH"

/-- `User` (src/unnamed/part_001 lines 23-29). -/
structure User where
  id : String
  name : String
  email : String
  password : Option String
  isAdmin : Option Bool
deriving DecidableEq, Repr

/-- `Comment` (src/unnamed/part_001 lines 31-37). -/
structure Comment where
  id : String
  userId : String
  userName : String
  text : String
  createdAt : String
deriving DecidableEq, Repr

/-- `Transaction` (src/unnamed/part_001 lines 39-50).  The `amount` is a JS
number used additively; it is embedded as `Int`. -/
structure Transaction where
  id : String
  accountId : String
  amount : Int
  type : TransactionType
  paymentMode : PaymentMode
  comment : String
  date : String
  status : TransactionStatus
  createdBy : String
  comments : List Comment
deriving DecidableEq, Repr

/-- `AccountMember` (src/unnamed/part_001 lines 52-55). -/
structure AccountMember where
  userId : String
  role : MemberRole
deriving DecidableEq, Repr

/-- `Account` (src/unnamed/part_001 lines 57-63). -/
structure Account where
  id : String
  name : String
  ownerId : String
  members : List AccountMember
  createdAt : String
deriving DecidableEq, Repr

/-! ## JS primitives used by the handlers -/

/-- `String.prototype.toLowerCase` on the characters of a string. -/
def jsToLower (s : String) : String :=
  s.map Char.toLower

/-- Does `hay` begin with `needle`? -/
def charsMatchAt : List Char → List Char → Bool
  | [], _ => true
  | _ :: _, [] => false
  | c :: cs, d :: ds => c = d && charsMatchAt cs ds

/-- Does `needle` occur contiguously inside `hay`? -/
def charsSubstring : List Char → List Char → Bool
  | needle, [] => needle.isEmpty
  | needle, d :: ds => charsMatchAt needle (d :: ds) || charsSubstring needle ds

/-- `s.includes(search)`: `search` occurs as a contiguous substring of `s`. -/
def jsIncludes (s search : String) : Bool :=
  charsSubstring search.toList s.toList

/-- `String.prototype.trim`: strip leading and trailing whitespace. -/
def jsTrim (s : String) : String :=
  ⟨((s.toList.dropWhile Char.isWhitespace).reverse.dropWhile Char.isWhitespace).reverse⟩

/-- `b.localeCompare(a)` on the id strings generated by the app
(`tx${Date.now()}` over ASCII), where the collation order coincides with
code-point order: negative, zero or positive according to the comparison. -/
def jsLocaleCompare (a b : String) : Int :=
  if a < b then -1 else if b < a then 1 else 0

/-- Days since the Unix epoch of a civil date (standard days-from-civil
computation), used to embed `new Date(s).getTime()` below. -/
def daysFromCivil (y m d : Nat) : Int :=
  let y' := if m ≤ 2 then y - 1 else y
  let era := y' / 400
  let yoe := y' - era * 400
  let mp := if 2 < m then m - 3 else m + 9
  let doy := (153 * mp + 2) / 5 + d - 1
  let doe := yoe * 365 + yoe / 4 - yoe / 100 + doy
  ((era * 146097 + doe : Nat) : Int) - 719468

/-- Split a character list at every occurrence of the separator `c`
(the character-list form of `String.splitOn` for a one-character separator). -/
def splitOnChar (c : Char) : List Char → List (List Char)
  | [] => [[]]
  | x :: xs =>
    let r := splitOnChar c xs
    if x = c then [] :: r
    else
      match r with
      | [] => [[x]]
      | y :: ys => (x :: y) :: ys

/-- The character-list form of `String.toNat?`: the numeric value of a
nonempty all-digit character list. -/
def charsToNat? (cs : List Char) : Option Nat :=
  if cs ≠ [] ∧ cs.all Char.isDigit then
    some (cs.foldl (fun n c => n * 10 + (c.toNat - 48)) 0)
  else none

/-- `new Date(s).getTime()` on the date-only ISO strings `"YYYY-MM-DD"`
produced by the app's date inputs (interpreted as UTC midnight, in
milliseconds).  Strings outside that format, which the date inputs never
produce, are mapped to 0. -/
def jsDateTime (s : String) : Int :=
  match (splitOnChar '-' s.toList).map charsToNat? with
  | [some y, some m, some d] =>
      if 1 ≤ m ∧ m ≤ 12 ∧ 1 ≤ d ∧ d ≤ 31 then daysFromCivil y m d * 86400000 else 0
  | _ => 0

example : jsDateTime "2024-01-01" = 19723 * 86400000 := by decide
example : jsDateTime "2024-01-02" = 19724 * 86400000 := by decide
example : jsDateTime "1970-01-01" = 0 := by decide

/-! ## Computed state (App.tsx lines 171-255) -/

/-- `myAccounts` (App.tsx lines 172-175): the accounts visible to the current
user — owned, or with a members entry for the user. -/
def myAccounts (accounts : List Account) (currentUser : User) : List Account :=
  accounts.filter fun a =>
    decide (a.ownerId = currentUser.id) || a.members.any fun m => decide (m.userId = currentUser.id)

/-- `userPermissionInAccount` (App.tsx lines 181-186) for a logged-in user and
an existing selected account (with no user or no account the code returns
VIEWER before resolving).  The source's `member?.role || MemberRole.VIEWER`
falls back exactly when no members entry is found, because every role value is
a non-empty (truthy) string. -/
def userPermissionInAccount (currentUser : User) (selectedAccount : Account) : MemberRole :=
  if selectedAccount.ownerId = currentUser.id then .OWNER
  else
    match selectedAccount.members.find? (fun m => decide (m.userId = currentUser.id)) with
    | some member => member.role
    | none => .VIEWER

/-- `targetAccountIds` (App.tsx lines 191-195): the account ids whose
transactions the dashboard shows — the selected account if one is open,
otherwise the account filter, with `"all"` meaning every visible account. -/
def targetAccountIds (selectedAccountId : Option String) (dashboardAccountFilter : String)
    (accounts : List Account) (currentUser : User) : List String :=
  match selectedAccountId with
  | some accId => [accId]
  | none =>
      if dashboardAccountFilter = "all" then (myAccounts accounts currentUser).map Account.id
      else [dashboardAccountFilter]

/-- `a` may precede `b` under the sort comparator of `filteredTransactions`
(App.tsx lines 212-217): the comparator value
`dateB - dateA`, tie-broken by `b.id.localeCompare(a.id)`, is ≤ 0. -/
def txLe (a b : Transaction) : Prop :=
  jsDateTime b.date < jsDateTime a.date ∨
    (jsDateTime b.date = jsDateTime a.date ∧ jsLocaleCompare b.id a.id ≤ 0)

instance : DecidableRel txLe := fun a b => by
  unfold txLe; infer_instance

/-- The conjunction of the dashboard filter criteria applied by
`filteredTransactions` (App.tsx lines 197-210). -/
def matchesFilters (selectedAccountId : Option String)
    (dashboardAccountFilter dashboardSearch dashboardTypeFilter dashboardModeFilter : String)
    (accounts : List Account) (currentUser : User) (t : Transaction) : Bool :=
  (targetAccountIds selectedAccountId dashboardAccountFilter accounts currentUser).contains t.accountId
    && (if jsTrim dashboardSearch ≠ "" then jsIncludes (jsToLower t.comment) (jsToLower dashboardSearch)
        else true)
    && (if dashboardTypeFilter ≠ "all" then decide (t.type.toStr = dashboardTypeFilter) else true)
    && (if dashboardModeFilter ≠ "all" then decide (t.paymentMode.toStr = dashboardModeFilter)
        else true)

/-- `filteredTransactions` (App.tsx lines 190-218): account scoping, free-text
search over the comment (the search string is lowercased untrimmed, exactly as
in the source), type and mode filters, then the sort.  JS `Array.sort` is
stable, and so is `List.insertionSort`, so with the comparator embedded in
`txLe` the two agree element for element. -/
def filteredTransactions (transactions : List Transaction) (selectedAccountId : Option String)
    (dashboardAccountFilter dashboardSearch dashboardTypeFilter dashboardModeFilter : String)
    (accounts : List Account) (currentUser : User) : List Transaction :=
  let targets := targetAccountIds selectedAccountId dashboardAccountFilter accounts currentUser
  let txs := transactions.filter fun t => targets.contains t.accountId
  let txs :=
    if jsTrim dashboardSearch ≠ "" then
      let search := jsToLower dashboardSearch
      txs.filter fun t => jsIncludes (jsToLower t.comment) search
    else txs
  let txs :=
    if dashboardTypeFilter ≠ "all" then
      txs.filter fun t => decide (t.type.toStr = dashboardTypeFilter)
    else txs
  let txs :=
    if dashboardModeFilter ≠ "all" then
      txs.filter fun t => decide (t.paymentMode.toStr = dashboardModeFilter)
    else txs
  txs.insertionSort txLe

/-- The record produced by `stats` (App.tsx lines 220-225). -/
structure Stats where
  income : Int
  expenses : Int
  balance : Int
deriving DecidableEq, Repr

/-- `stats` (App.tsx lines 220-225): income and expenses summed over the
APPROVED transactions of the given (filtered) list, and their difference. -/
def stats (filtered : List Transaction) : Stats :=
  let approved := filtered.filter fun t => decide (t.status = .APPROVED)
  let income :=
    (approved.filter fun t => decide (t.type = .CREDIT)).foldl (fun acc curr => acc + curr.amount) 0
  let expenses :=
    (approved.filter fun t => decide (t.type = .DEBIT)).foldl (fun acc curr => acc + curr.amount) 0
  { income := income, expenses := expenses, balance := income - expenses }

/-! ## Transaction handlers (App.tsx lines 299-340) -/

/-- The editable payload of `saveTransaction` (App.tsx line 299):
`Omit<Transaction, 'id' | 'status' | 'comments' | 'createdBy' | 'accountId'>`. -/
structure TransactionData where
  amount : Int
  type : TransactionType
  paymentMode : PaymentMode
  comment : String
  date : String
deriving DecidableEq, Repr

/-- The per-transaction update of the edit branch of `saveTransaction`
(App.tsx lines 303-307): `t.id === transactionToEdit.id ? { ...t, ...data,
status: PENDING } : t`. -/
def saveTransactionEditFn (editId : String) (data : TransactionData) (t : Transaction) :
    Transaction :=
  if t.id = editId then
    { t with
      amount := data.amount, type := data.type, paymentMode := data.paymentMode,
      comment := data.comment, date := data.date, status := .PENDING }
  else t

/-- The edit branch of `saveTransaction` (App.tsx lines 302-307). -/
def saveTransactionEdit (txs : List Transaction) (editId : String) (data : TransactionData) :
    List Transaction :=
  txs.map (saveTransactionEditFn editId data)

/-- The create branch of `saveTransaction` (App.tsx lines 308-317): a new
PENDING transaction with no comments is appended. -/
def saveTransactionCreate (txs : List Transaction) (data : TransactionData)
    (newId accountId createdBy : String) : List Transaction :=
  txs ++ [{ id := newId, accountId := accountId, amount := data.amount, type := data.type,
            paymentMode := data.paymentMode, comment := data.comment, date := data.date,
            status := .PENDING, createdBy := createdBy, comments := [] }]

/-- The per-transaction update of `updateTransactionStatus`
(App.tsx line 325): `t.id === txId ? { ...t, status } : t`. -/
def updateTransactionStatusFn (txId : String) (status : TransactionStatus) (t : Transaction) :
    Transaction :=
  if t.id = txId then { t with status := status } else t

/-- `updateTransactionStatus` (App.tsx lines 324-326). -/
def updateTransactionStatus (txs : List Transaction) (txId : String)
    (status : TransactionStatus) : List Transaction :=
  txs.map (updateTransactionStatusFn txId status)

/-- The per-transaction update of `addComment` (App.tsx lines 337-339). -/
def addCommentFn (txId : String) (c : Comment) (t : Transaction) : Transaction :=
  if t.id = txId then { t with comments := t.comments ++ [c] } else t

/-- `addComment` (App.tsx lines 328-340); the comment payload is abstracted
as an argument. -/
def addComment (txs : List Transaction) (txId : String) (c : Comment) : List Transaction :=
  txs.map (addCommentFn txId c)

/-- The user-triggerable status update.  UI gate (App.tsx lines 1208-1225):
the approve and reject buttons are rendered only on a row whose transaction
has status PENDING, and they call `updateTransactionStatus` only with
APPROVED respectively REJECTED. -/
def updateStatusViaUI (txs : List Transaction) (txId : String) (status : TransactionStatus) :
    List Transaction :=
  if (status = .APPROVED ∨ status = .REJECTED)
      ∧ txs.any (fun t => decide (t.id = txId ∧ t.status = .PENDING)) then
    updateTransactionStatus txs txId status
  else txs

/-- The transaction-mutating operations a user can trigger: the two branches
of `saveTransaction`, the (gated) status update, and `addComment`. -/
inductive TxOp where
  | create (data : TransactionData) (newId accountId createdBy : String)
  | edit (editId : String) (data : TransactionData)
  | updateStatus (txId : String) (status : TransactionStatus)
  | comment (txId : String) (c : Comment)
deriving DecidableEq, Repr

/-- Apply one transaction operation to the transaction list. -/
def applyTxOp (txs : List Transaction) : TxOp → List Transaction
  | .create data newId accountId createdBy => saveTransactionCreate txs data newId accountId createdBy
  | .edit editId data => saveTransactionEdit txs editId data
  | .updateStatus txId status => updateStatusViaUI txs txId status
  | .comment txId c => addComment txs txId c

/-! ## Account handlers (App.tsx lines 286-358) -/

/-- `createAccount` (App.tsx lines 286-297): a new account owned by the
current user with an empty members list is appended; the generated id and
timestamp are abstracted as arguments. -/
def createAccount (accounts : List Account) (id name ownerId createdAt : String) :
    List Account :=
  accounts ++ [{ id := id, name := name, ownerId := ownerId, members := [], createdAt := createdAt }]

/-- The members-list update performed by `shareAccount` (App.tsx line 344):
`[...a.members.filter(m => m.userId !== userId), { userId, role }]`. -/
def upsertMember (members : List AccountMember) (userId : String) (role : MemberRole) :
    List AccountMember :=
  members.filter (fun m => decide (m.userId ≠ userId)) ++ [{ userId := userId, role := role }]

/-- `shareAccount` (App.tsx lines 342-349) on the accounts list (the parallel
update of the `accountToManage` snapshot is presentation state). -/
def shareAccount (accounts : List Account) (accountId userId : String) (role : MemberRole) :
    List Account :=
  accounts.map fun a =>
    if a.id = accountId then { a with members := upsertMember a.members userId role } else a

/-- `removeMember` (App.tsx lines 351-358) on the accounts list. -/
def removeMember (accounts : List Account) (accountId userId : String) : List Account :=
  accounts.map fun a =>
    if a.id = accountId then
      { a with members := a.members.filter fun m => decide (m.userId ≠ userId) }
    else a

/-- The userIds with which the members modal can invoke `shareAccount` on the
managed account: a role change for a listed member (App.tsx lines 564-571,
the select is rendered per members entry), or adding a user who is neither
the account's owner nor already listed (App.tsx lines 589-603, the dropdown
is populated by
`users.filter(u => u.id !== ownerId && !members.some(m => m.userId === u.id))`). -/
def shareGate (acc : Account) (userId : String) : Bool :=
  acc.members.any (fun m => decide (m.userId = userId))
    || (decide (userId ≠ acc.ownerId)
        && !acc.members.any (fun m => decide (m.userId = userId)))

/-- The gate through which the members modal is reached (App.tsx lines
1051-1057 and 1093-1100): the MANAGE TEAM buttons setting `accountToManage`
are rendered only when `acc.ownerId === currentUser?.id`. -/
def manageGate (accounts : List Account) (accountId : String) (currentUser : User) : Bool :=
  match accounts.find? (fun a => decide (a.id = accountId)) with
  | some a => decide (a.ownerId = currentUser.id)
  | none => false

/-- `shareAccount` as triggerable by a given user: the members modal, the only
call site, opens only behind `manageGate`. -/
def shareAccountViaUI (currentUser : User) (accounts : List Account)
    (accountId userId : String) (role : MemberRole) : List Account :=
  if manageGate accounts accountId currentUser then
    shareAccount accounts accountId userId role
  else accounts

/-- `removeMember` as triggerable by a given user: the members modal, the only
call site, opens only behind `manageGate`. -/
def removeMemberViaUI (currentUser : User) (accounts : List Account)
    (accountId userId : String) : List Account :=
  if manageGate accounts accountId currentUser then
    removeMember accounts accountId userId
  else accounts

/-- The account-mutating operations a user can trigger. -/
inductive AccountOp where
  | create (id name ownerId createdAt : String)
  | share (accountId userId : String) (role : MemberRole)
  | remove (accountId userId : String)
deriving DecidableEq, Repr

/-- Apply one account operation; a `share` goes through the members modal, so
its userId satisfies `shareGate` for the managed account (the one
`accountToManage` holds, found by id), otherwise the modal offers no way to
fire it. -/
def applyAccountOp (accounts : List Account) : AccountOp → List Account
  | .create id name ownerId createdAt => createAccount accounts id name ownerId createdAt
  | .share accountId userId role =>
      match accounts.find? (fun a => decide (a.id = accountId)) with
      | some acc => if shareGate acc userId then shareAccount accounts accountId userId role
                    else accounts
      | none => accounts
  | .remove accountId userId => removeMember accounts accountId userId

/-- The account states reachable from `s` by user-triggered operations.  The
ids `createAccount` generates (`acc${Date.now()}`) identify accounts, so a
created account's id is fresh. -/
inductive ReachableAccounts : List Account → List Account → Prop where
  | refl (s : List Account) : ReachableAccounts s s
  | create {s t : List Account} {id name ownerId createdAt : String} :
      ReachableAccounts s t → id ∉ t.map Account.id →
      ReachableAccounts s (applyAccountOp t (.create id name ownerId createdAt))
  | share {s t : List Account} {accountId userId : String} {role : MemberRole} :
      ReachableAccounts s t →
      ReachableAccounts s (applyAccountOp t (.share accountId userId role))
  | remove {s t : List Account} {accountId userId : String} :
      ReachableAccounts s t →
      ReachableAccounts s (applyAccountOp t (.remove accountId userId))

/-- The per-account membership invariant: the owner is not listed as a
member, and no userId is listed twice. -/
def accountInv (a : Account) : Prop :=
  a.ownerId ∉ a.members.map AccountMember.userId ∧ (a.members.map AccountMember.userId).Nodup

/-- The state invariant: account ids are distinct (identity is by id, and
generated ids are fresh) and every account satisfies `accountInv`. -/
def stateInv (accounts : List Account) : Prop :=
  (accounts.map Account.id).Nodup ∧ ∀ a ∈ accounts, accountInv a

/-! ## External AI calls (src/services/geminiService.ts) -/

/-- The outcome of an awaited JS call: a value, or a thrown exception. -/
inductive JsCall (α : Type) where
  | ok (value : α)
  | thrown
deriving DecidableEq, Repr

/-- The response of `ai.models.generateContent`: `response.text` is a string
or undefined. -/
structure GenerateContentResponse where
  text : Option String
deriving DecidableEq, Repr

/-- JS `x || fallback` on `response.text`: the fallback is used when the text
is undefined or empty (falsy). -/
def jsOrString (t : Option String) (fallback : String) : String :=
  match t with
  | some s => if s = "" then fallback else s
  | none => fallback

/-- `getFinancialInsights` (geminiService.ts lines 5-32) as a function of the
outcome of the `generateContent` call it awaits inside `try`: the `catch`
turns any thrown failure into the fixed error string, and a missing or empty
response text into the fixed placeholder. -/
def getFinancialInsights (call : JsCall GenerateContentResponse) : JsCall String :=
  match call with
  | .ok response => .ok (jsOrString response.text "Unable to generate insights at this time.")
  | .thrown => .ok "Error connecting to AI service."

/-- `draftInvitationEmail` (geminiService.ts lines 34-54), likewise. -/
def draftInvitationEmail (call : JsCall GenerateContentResponse) : JsCall String :=
  match call with
  | .ok response => .ok (jsOrString response.text "Failed to generate draft.")
  | .thrown => .ok "Error generating draft."

/-! ## The worked example of the specification -/

/-- The user of the worked example. -/
def exUser : User :=
  { id := "u1", name := "John Doe", email := "john@example.com",
    password := some "password123", isAdmin := some true }

/-- The account of the worked example, owned by `exUser`. -/
def exAccount : Account :=
  { id := "acc1", name := "Household", ownerId := "u1", members := [], createdAt := "2024-01-01" }

/-- The APPROVED credit of 500 on 2024-01-02. -/
def exTxCredit500 : Transaction :=
  { id := "tx2", accountId := "acc1", amount := 500, type := .CREDIT, paymentMode := .ONLINE,
    comment := "Salary", date := "2024-01-02", status := .APPROVED, createdBy := "u1",
    comments := [] }

/-- The APPROVED debit of 200 on 2024-01-01. -/
def exTxDebit200 : Transaction :=
  { id := "tx1", accountId := "acc1", amount := 200, type := .DEBIT, paymentMode := .CASH,
    comment := "Groceries", date := "2024-01-01", status := .APPROVED, createdBy := "u1",
    comments := [] }

example :
    filteredTransactions [exTxDebit200, exTxCredit500] none "all" "" "all" "all"
      [exAccount] exUser = [exTxCredit500, exTxDebit200] := by decide

example : stats [exTxCredit500, exTxDebit200] = { income := 500, expenses := 200, balance := 300 } := by
  decide

/-- A second user, not the owner of `exAccount`. -/
def exUser2 : User :=
  { id := "u2", name := "Jane Manager", email := "jane@example.com",
    password := some "password123", isAdmin := none }

/-- An account owned by `exUser` with `exUser2` listed as EDITOR. -/
def exAccount2 : Account :=
  { id := "acc2", name := "Team", ownerId := "u1",
    members := [{ userId := "u2", role := .EDITOR }], createdAt := "2024-01-03" }

/-- A concrete editable payload. -/
def exData : TransactionData :=
  { amount := 750, type := .CREDIT, paymentMode := .CASH,
    comment := "Updated salary", date := "2024-01-05" }

/-! ## Helper lemmas -/

/-- Folding `+ amount` from an initial value is the initial value plus the sum
of the amounts. -/
lemma foldl_add_amount (l : List Transaction) (init : Int) :
    l.foldl (fun acc curr => acc + curr.amount) init
      = init + (l.map Transaction.amount).sum := by
  induction l generalizing init with
  | nil => simp
  | cons x xs ih => simp [List.foldl_cons, ih, add_assoc]

/-- `jsLocaleCompare x y ≤ 0` says exactly `x ≤ y` in code-point order. -/
lemma jsLocaleCompare_nonpos_iff (x y : String) : jsLocaleCompare x y ≤ 0 ↔ x ≤ y := by
  unfold jsLocaleCompare
  by_cases h1 : x < y
  · simp [h1, le_of_lt h1]
  · simp only [h1, if_false]
    by_cases h2 : y < x
    · simp [h2, not_le.mpr h2]
    · simp [h2, not_lt.mp h2]

/-- The sort relation is total. -/
lemma txLe_total (a b : Transaction) : txLe a b ∨ txLe b a := by
  unfold txLe
  rcases lt_trichotomy (jsDateTime a.date) (jsDateTime b.date) with h | h | h
  · exact Or.inr (Or.inl h)
  · rcases le_total b.id a.id with hid | hid
    · exact Or.inl (Or.inr ⟨h.symm, (jsLocaleCompare_nonpos_iff _ _).mpr hid⟩)
    · exact Or.inr (Or.inr ⟨h, (jsLocaleCompare_nonpos_iff _ _).mpr hid⟩)
  · exact Or.inl (Or.inl h)

/-- The sort relation is transitive. -/
lemma txLe_trans (a b c : Transaction) (hab : txLe a b) (hbc : txLe b c) : txLe a c := by
  unfold txLe at *
  rcases hab with hab | ⟨hab, hab'⟩ <;> rcases hbc with hbc | ⟨hbc, hbc'⟩
  · exact Or.inl (hbc.trans hab)
  · exact Or.inl (hbc ▸ hab)
  · exact Or.inl (hab ▸ hbc)
  · refine Or.inr ⟨hbc.trans hab, ?_⟩
    rw [jsLocaleCompare_nonpos_iff] at *
    exact hbc'.trans hab'

instance : IsTotal Transaction txLe := ⟨txLe_total⟩

instance : IsTrans Transaction txLe := ⟨txLe_trans⟩

/-! ## Claim theorems -/

/-- C1: For every list of transactions, the aggregate balance computed by
`stats` equals the sum of amounts of APPROVED CREDIT transactions minus the
sum of amounts of APPROVED DEBIT transactions (and income and expenses are
those two sums); a transaction whose status is PENDING or REJECTED
contributes nothing to income, expenses or balance; on the two APPROVED
example transactions (credit 500 on 2024-01-02, debit 200 on 2024-01-01) the
balance is 300. -/
theorem stats_balance_spec (txs : List Transaction) :
    ((stats txs).income
        = ((txs.filter fun t => decide (t.type = .CREDIT ∧ t.status = .APPROVED)).map
            Transaction.amount).sum
      ∧ (stats txs).expenses
        = ((txs.filter fun t => decide (t.type = .DEBIT ∧ t.status = .APPROVED)).map
            Transaction.amount).sum
      ∧ (stats txs).balance
        = ((txs.filter fun t => decide (t.type = .CREDIT ∧ t.status = .APPROVED)).map
            Transaction.amount).sum
          - ((txs.filter fun t => decide (t.type = .DEBIT ∧ t.status = .APPROVED)).map
              Transaction.amount).sum)
  ∧ (∀ (t : Transaction) (pre post : List Transaction),
        t.status = .PENDING ∨ t.status = .REJECTED →
        stats (pre ++ t :: post) = stats (pre ++ post))
  ∧ stats [exTxCredit500, exTxDebit200] = { income := 500, expenses := 200, balance := 300 } := by
  refine ⟨⟨?_, ?_, ?_⟩, ?_, by decide⟩
  · simp [stats, List.filter_filter, foldl_add_amount]
  · simp [stats, List.filter_filter, foldl_add_amount]
  · simp [stats, List.filter_filter, foldl_add_amount]
  · intro t pre post ht
    have hna : ¬ t.status = TransactionStatus.APPROVED := by
      rcases ht with h | h <;> simp [h]
    simp [stats, List.filter_append, List.filter_cons, hna]

/-- C1 witness: the theorem instantiated at the example transactions; its
inner frame condition applied to a concrete PENDING transaction. -/
theorem stats_balance_spec_witness :
    stats ([exTxCredit500] ++ { exTxDebit200 with status := .PENDING } :: [exTxDebit200])
      = stats ([exTxCredit500] ++ [exTxDebit200]) :=
  (stats_balance_spec [exTxCredit500, exTxDebit200]).2.1
    { exTxDebit200 with status := .PENDING } [exTxCredit500] [exTxDebit200] (Or.inl rfl)

/-- C2: permission resolution yields OWNER when the user's id equals the
account's ownerId; otherwise the role recorded in the (duplicate-free)
members list for that userId when an entry exists; otherwise VIEWER. -/
theorem userPermission_spec (u : User) (acc : Account)
    (hnd : (acc.members.map AccountMember.userId).Nodup) :
    (acc.ownerId = u.id → userPermissionInAccount u acc = .OWNER)
  ∧ (acc.ownerId ≠ u.id →
      ∀ m ∈ acc.members, m.userId = u.id → userPermissionInAccount u acc = m.role)
  ∧ (acc.ownerId ≠ u.id → (∀ m ∈ acc.members, m.userId ≠ u.id) →
      userPermissionInAccount u acc = .VIEWER) := by
  refine ⟨fun h => by simp [userPermissionInAccount, h], ?_, ?_⟩
  · intro hno m hm hmid
    unfold userPermissionInAccount
    rw [if_neg hno]
    cases hfind : acc.members.find? (fun m => decide (m.userId = u.id)) with
    | none =>
        have := List.find?_eq_none.mp hfind m hm
        simp [hmid] at this
    | some m' =>
        have hm'id : m'.userId = u.id := by simpa using List.find?_some hfind
        have hm'mem : m' ∈ acc.members := List.mem_of_find?_eq_some hfind
        have : m' = m := List.inj_on_of_nodup_map hnd hm'mem hm (by rw [hm'id, hmid])
        simp [this]
  · intro hno hnone
    unfold userPermissionInAccount
    rw [if_neg hno]
    have : acc.members.find? (fun m => decide (m.userId = u.id)) = none := by
      rw [List.find?_eq_none]
      intro m hm
      simp [hnone m hm]
    simp [this]

/-- C2 witness: on `exAccount2`, the owner resolves to OWNER and the listed
member `u2` resolves to EDITOR. -/
theorem userPermission_spec_witness :
    userPermissionInAccount exUser2 exAccount2 = .EDITOR :=
  (userPermission_spec exUser2 exAccount2 (by decide)).2.1 (by decide)
    { userId := "u2", role := .EDITOR } (by decide) (by decide)

/-- C3: an edit through `saveTransaction` leaves the edited transaction with
status PENDING, whatever its status was before. -/
theorem saveTransaction_edit_resets_status (txs : List Transaction) (editId : String)
    (data : TransactionData) :
    ∀ t' ∈ saveTransactionEdit txs editId data, t'.id = editId → t'.status = .PENDING := by
  intro t' ht' hid
  rcases List.mem_map.mp ht' with ⟨t, _, rfl⟩
  by_cases h : t.id = editId
  · simp [saveTransactionEditFn, h]
  · rw [saveTransactionEditFn, if_neg h] at hid
    exact absurd hid h

/-- C3 witness: editing the APPROVED example credit resets it to PENDING. -/
theorem saveTransaction_edit_resets_status_witness :
    (saveTransactionEditFn "tx2" exData exTxCredit500).status = .PENDING :=
  saveTransaction_edit_resets_status [exTxCredit500] "tx2" exData _ (by decide) (by decide)

/-- C8: each of the two AI operations returns a string for every outcome of
the underlying text-generation call, and a thrown failure of that call is
replaced by the operation's fixed error string, never propagated. -/
theorem geminiService_never_throws :
    (∀ call, ∃ s, getFinancialInsights call = .ok s)
  ∧ (∀ call, ∃ s, draftInvitationEmail call = .ok s)
  ∧ getFinancialInsights .thrown = .ok "Error connecting to AI service."
  ∧ draftInvitationEmail .thrown = .ok "Error generating draft." := by
  refine ⟨fun call => ?_, fun call => ?_, rfl, rfl⟩
  · cases call with
    | ok r => exact ⟨_, rfl⟩
    | thrown => exact ⟨_, rfl⟩
  · cases call with
    | ok r => exact ⟨_, rfl⟩
    | thrown => exact ⟨_, rfl⟩

/-- C9: post-creation mutations touch only status and content fields: an
edit leaves id, accountId, createdBy and the comments list unchanged, and a
status update rewrites exactly the status of a matching transaction while
leaving any non-matching transaction entirely unchanged (both handlers map
these per-transaction updates over the list). -/
theorem post_creation_frame :
    (∀ (editId : String) (data : TransactionData) (t : Transaction),
        (saveTransactionEditFn editId data t).id = t.id
        ∧ (saveTransactionEditFn editId data t).accountId = t.accountId
        ∧ (saveTransactionEditFn editId data t).createdBy = t.createdBy
        ∧ (saveTransactionEditFn editId data t).comments = t.comments)
  ∧ (∀ (txId : String) (st : TransactionStatus) (t : Transaction),
        (t.id = txId → updateTransactionStatusFn txId st t = { t with status := st })
        ∧ (t.id ≠ txId → updateTransactionStatusFn txId st t = t)) := by
  constructor
  · intro editId data t
    by_cases h : t.id = editId <;> simp [saveTransactionEditFn, h]
  · intro txId st t
    constructor <;> intro h <;> simp [updateTransactionStatusFn, h]

/-- C9 witness: a status update on the example credit rewrites exactly its
status, and leaves the example debit (a different id) unchanged. -/
theorem post_creation_frame_witness :
    updateTransactionStatusFn "tx2" .REJECTED exTxCredit500
        = { exTxCredit500 with status := .REJECTED }
    ∧ updateTransactionStatusFn "tx2" .REJECTED exTxDebit200 = exTxDebit200 :=
  ⟨(post_creation_frame.2 "tx2" .REJECTED exTxCredit500).1 (by decide),
   (post_creation_frame.2 "tx2" .REJECTED exTxDebit200).2 (by decide)⟩

/-- C10: `shareAccount` upserts: in the updated account the given userId has
exactly one members entry, which carries the new role and sits at the end of
the list, and applying the operation twice with the same arguments equals
applying it once. -/
theorem shareAccount_upsert (accounts : List Account) (accountId userId : String)
    (role : MemberRole) :
    (∀ acc' ∈ shareAccount accounts accountId userId role, acc'.id = accountId →
        (acc'.members.filter fun m => decide (m.userId = userId)).length = 1
        ∧ acc'.members.getLast? = some { userId := userId, role := role })
  ∧ shareAccount (shareAccount accounts accountId userId role) accountId userId role
      = shareAccount accounts accountId userId role := by
  constructor
  · intro acc' hmem hid
    rcases List.mem_map.mp hmem with ⟨a, _, rfl⟩
    by_cases h : a.id = accountId
    · simp only [h, if_pos rfl]
      constructor
      · simp [upsertMember, List.filter_append, List.filter_filter]
      · simp [upsertMember]
    · rw [if_neg h] at hid
      exact absurd hid h
  · unfold shareAccount
    rw [List.map_map]
    apply List.map_congr_left
    intro a _
    simp only [Function.comp_apply]
    by_cases h : a.id = accountId
    · rw [if_pos h]
      have h2 : ({ a with members := upsertMember a.members userId role } : Account).id
          = accountId := h
      rw [if_pos h2]
      have hup : upsertMember (upsertMember a.members userId role) userId role
          = upsertMember a.members userId role := by
        simp [upsertMember, List.filter_append, List.filter_filter]
      simp [hup]
    · rw [if_neg h, if_neg h]

/-- C10 witness: re-sharing `exAccount2` with its listed member `u2` under a
new role keeps exactly one `u2` entry, at the end, with the new role. -/
theorem shareAccount_upsert_witness :
    ((({ exAccount2 with
          members := upsertMember exAccount2.members "u2" .VIEWER } : Account).members.filter
        fun m => decide (m.userId = "u2")).length = 1)
    ∧ ({ exAccount2 with
          members := upsertMember exAccount2.members "u2" .VIEWER } : Account).members.getLast?
        = some { userId := "u2", role := .VIEWER } :=
  (shareAccount_upsert [exAccount2] "acc2" "u2" .VIEWER).1 _ (by decide) (by decide)

/-- C6: a user whose effective role in an account is not OWNER cannot alter
the members list: adding a member, removing a member and changing a member's
role, as triggerable through the UI, leave the accounts list unchanged for
that user; only a user resolving to OWNER gets the members-management
controls. -/
theorem members_owner_only (u : User) (accounts : List Account)
    (accountId userId : String) (role : MemberRole) (acc : Account)
    (hfind : accounts.find? (fun a => decide (a.id = accountId)) = some acc)
    (hrole : userPermissionInAccount u acc ≠ .OWNER) :
    shareAccountViaUI u accounts accountId userId role = accounts
    ∧ removeMemberViaUI u accounts accountId userId = accounts := by
  have howner : ¬ acc.ownerId = u.id := fun h => hrole (by simp [userPermissionInAccount, h])
  have hgate : manageGate accounts accountId u = false := by
    unfold manageGate
    rw [hfind]
    simp [howner]
  exact ⟨by simp [shareAccountViaUI, hgate], by simp [removeMemberViaUI, hgate]⟩

/-- C6 witness: `exUser2` (effective role VIEWER in `exAccount`) cannot share
or remove on `exAccount`. -/
theorem members_owner_only_witness :
    shareAccountViaUI exUser2 [exAccount] "acc1" "u3" .EDITOR = [exAccount]
    ∧ removeMemberViaUI exUser2 [exAccount] "acc1" "u3" = [exAccount] :=
  members_owner_only exUser2 [exAccount] "acc1" "u3" .EDITOR exAccount (by decide) (by decide)

/-- `filteredTransactions` equals the stable sort of the one-pass filter by
`matchesFilters`. -/
lemma filteredTransactions_eq (transactions : List Transaction)
    (selectedAccountId : Option String)
    (accFilter search typeFilter modeFilter : String)
    (accounts : List Account) (currentUser : User) :
    filteredTransactions transactions selectedAccountId accFilter search typeFilter modeFilter
        accounts currentUser
      = (transactions.filter fun t =>
          matchesFilters selectedAccountId accFilter search typeFilter modeFilter
            accounts currentUser t).insertionSort txLe := by
  unfold filteredTransactions
  by_cases h1 : jsTrim search = "" <;> by_cases h2 : typeFilter = "all" <;>
    by_cases h3 : modeFilter = "all" <;>
      simp [h1, h2, h3, matchesFilters, List.filter_filter, Bool.and_comm, Bool.and_assoc,
        Bool.and_left_comm]

/-- C7: the dashboard list contains exactly the transactions that satisfy all
active filter criteria over the targeted accounts (a permutation of the
one-pass filter), it is sorted by date descending with ties broken by id
descending, every listed transaction belongs to a visible account whenever
the account selections are (as the UI guarantees) visible accounts, and on
the worked example the output order is the 500 credit, then the 200 debit. -/
theorem filteredTransactions_spec (transactions : List Transaction)
    (selectedAccountId : Option String)
    (accFilter search typeFilter modeFilter : String)
    (accounts : List Account) (currentUser : User) :
    List.Perm
      (filteredTransactions transactions selectedAccountId accFilter search typeFilter
        modeFilter accounts currentUser)
      (transactions.filter fun t =>
        matchesFilters selectedAccountId accFilter search typeFilter modeFilter
          accounts currentUser t)
  ∧ List.Pairwise txLe
      (filteredTransactions transactions selectedAccountId accFilter search typeFilter
        modeFilter accounts currentUser)
  ∧ ((∀ accId, selectedAccountId = some accId →
        accId ∈ (myAccounts accounts currentUser).map Account.id) →
     (accFilter ≠ "all" → accFilter ∈ (myAccounts accounts currentUser).map Account.id) →
      ∀ t ∈ filteredTransactions transactions selectedAccountId accFilter search typeFilter
              modeFilter accounts currentUser,
        t.accountId ∈ (myAccounts accounts currentUser).map Account.id)
  ∧ filteredTransactions [exTxDebit200, exTxCredit500] none "all" "" "all" "all"
      [exAccount] exUser = [exTxCredit500, exTxDebit200] := by
  refine ⟨?_, ?_, ?_, by decide⟩
  · rw [filteredTransactions_eq]
    exact List.perm_insertionSort txLe _
  · rw [filteredTransactions_eq]
    exact List.sorted_insertionSort txLe _
  · intro hsel hfilter t ht
    rw [filteredTransactions_eq] at ht
    have ht' := (List.perm_insertionSort txLe _).mem_iff.mp ht
    have hmatch := List.of_mem_filter ht'
    have hcontains :
        (targetAccountIds selectedAccountId accFilter accounts currentUser).contains
          t.accountId = true := by
      simp only [matchesFilters, Bool.and_eq_true] at hmatch
      exact hmatch.1.1.1
    replace hcontains :
        t.accountId ∈ targetAccountIds selectedAccountId accFilter accounts currentUser := by
      simpa using hcontains
    cases hs : selectedAccountId with
    | some accId =>
        rw [hs] at hcontains
        simp only [targetAccountIds] at hcontains
        rcases List.mem_singleton.mp hcontains with rfl
        exact hsel _ hs
    | none =>
        rw [hs] at hcontains
        simp only [targetAccountIds] at hcontains
        by_cases hall : accFilter = "all"
        · rw [if_pos hall] at hcontains
          exact hcontains
        · rw [if_neg hall] at hcontains
          rcases List.mem_singleton.mp hcontains with rfl
          exact hfilter hall

/-- C7 witness: in the worked example every listed transaction belongs to a
visible account. -/
theorem filteredTransactions_spec_witness :
    exTxCredit500.accountId ∈ (myAccounts [exAccount] exUser).map Account.id :=
  (filteredTransactions_spec [exTxDebit200, exTxCredit500] none "all" "" "all" "all"
      [exAccount] exUser).2.2.1
    (fun _ h => by cases h) (fun h => absurd rfl h) exTxCredit500 (by decide)

/-- Indexing a mapped transaction list. -/
lemma get_map_tx (f : Transaction → Transaction) (l : List Transaction) (i : Nat)
    (h : i < l.length) (h' : i < (l.map f).length) :
    (l.map f).get ⟨i, h'⟩ = f (l.get ⟨i, h⟩) := by
  simp [List.get_eq_getElem]

/-- Two transactions of a duplicate-id-free list with the same id coincide. -/
lemma tx_id_inj {txs : List Transaction} (hnd : (txs.map Transaction.id).Nodup)
    {a b : Transaction} (ha : a ∈ txs) (hb : b ∈ txs) (hid : a.id = b.id) : a = b :=
  List.inj_on_of_nodup_map hnd ha hb hid

/-- Neither branch of `addCommentFn` touches the status. -/
lemma addCommentFn_status (txId : String) (c : Comment) (t : Transaction) :
    (addCommentFn txId c t).status = t.status := by
  by_cases h : t.id = txId <;> simp [addCommentFn, h]

/-- C5: over the user-triggerable transaction operations, a transaction whose
status is APPROVED or REJECTED keeps its status under every operation other
than an edit through `saveTransaction`; a transaction whose status changed to
APPROVED or REJECTED was PENDING before; and a freshly appended transaction
starts PENDING. -/
theorem status_terminal (txs : List Transaction) (op : TxOp)
    (hnd : (txs.map Transaction.id).Nodup) :
    ((∀ editId data, op ≠ .edit editId data) →
      ∀ i (h : i < txs.length) (h' : i < (applyTxOp txs op).length),
        ((txs.get ⟨i, h⟩).status = .APPROVED ∨ (txs.get ⟨i, h⟩).status = .REJECTED) →
        ((applyTxOp txs op).get ⟨i, h'⟩).status = (txs.get ⟨i, h⟩).status)
  ∧ (∀ i (h : i < txs.length) (h' : i < (applyTxOp txs op).length),
      (((applyTxOp txs op).get ⟨i, h'⟩).status = .APPROVED
        ∨ ((applyTxOp txs op).get ⟨i, h'⟩).status = .REJECTED) →
      ((applyTxOp txs op).get ⟨i, h'⟩).status ≠ (txs.get ⟨i, h⟩).status →
      (txs.get ⟨i, h⟩).status = .PENDING)
  ∧ (∀ i (h' : i < (applyTxOp txs op).length), txs.length ≤ i →
      ((applyTxOp txs op).get ⟨i, h'⟩).status = .PENDING) := by
  cases op with
  | create data newId accountId createdBy =>
      have hap : applyTxOp txs (.create data newId accountId createdBy)
          = txs ++ [{ id := newId, accountId := accountId, amount := data.amount,
                      type := data.type, paymentMode := data.paymentMode,
                      comment := data.comment, date := data.date, status := .PENDING,
                      createdBy := createdBy, comments := [] }] := rfl
      rw [hap]
      refine ⟨?_, ?_, ?_⟩
      · intro _ i h h' _
        simp [List.get_eq_getElem, List.getElem_append_left h]
      · intro i h h' _ hne
        exact absurd (by simp [List.get_eq_getElem, List.getElem_append_left h]) hne
      · intro i h' hge
        have hlen : i < txs.length + 1 := by simpa using h'
        have hi : i = txs.length := by omega
        subst hi
        simp [List.get_eq_getElem, List.getElem_append_right (le_refl txs.length)]
  | edit editId data =>
      have hap : applyTxOp txs (.edit editId data)
          = txs.map (saveTransactionEditFn editId data) := rfl
      rw [hap]
      refine ⟨fun hop => absurd rfl (hop editId data), ?_, ?_⟩
      · intro i h h' hAR hne
        rw [get_map_tx _ _ _ h] at hAR hne
        by_cases hm : (txs.get ⟨i, h⟩).id = editId
        · simp only [saveTransactionEditFn, if_pos hm] at hAR
          rcases hAR with hAR | hAR <;> cases hAR
        · simp only [saveTransactionEditFn, if_neg hm] at hne
          exact absurd rfl hne
      · intro i h' hge
        have : i < txs.length := by simpa using h'
        omega
  | updateStatus txId st =>
      have hap : applyTxOp txs (.updateStatus txId st) = updateStatusViaUI txs txId st := rfl
      rw [hap]
      unfold updateStatusViaUI
      by_cases hg : (st = .APPROVED ∨ st = .REJECTED)
          ∧ txs.any (fun t => decide (t.id = txId ∧ t.status = .PENDING))
      · rw [if_pos hg]
        obtain ⟨t₀, ht₀mem, ht₀⟩ := List.any_eq_true.mp hg.2
        rw [decide_eq_true_eq] at ht₀
        have hmain : ∀ i (h : i < txs.length),
            (txs.get ⟨i, h⟩).id = txId → txs.get ⟨i, h⟩ = t₀ := by
          intro i h hm
          exact tx_id_inj hnd (txs.get_mem _ _) ht₀mem (by rw [hm, ht₀.1])
        refine ⟨?_, ?_, ?_⟩
        · intro _ i h h' hAR
          have hEq : (updateTransactionStatus txs txId st).get ⟨i, h'⟩
              = updateTransactionStatusFn txId st (txs.get ⟨i, h⟩) := get_map_tx _ _ _ h h'
          rw [hEq]
          by_cases hm : (txs.get ⟨i, h⟩).id = txId
          · rw [hmain i h hm, ht₀.2] at hAR
            rcases hAR with hAR | hAR <;> cases hAR
          · simp only [updateTransactionStatusFn, if_neg hm]
        · intro i h h' _ hne
          by_cases hm : (txs.get ⟨i, h⟩).id = txId
          · rw [hmain i h hm]
            exact ht₀.2
          · have hEq : (updateTransactionStatus txs txId st).get ⟨i, h'⟩
                = updateTransactionStatusFn txId st (txs.get ⟨i, h⟩) := get_map_tx _ _ _ h h'
            rw [hEq] at hne
            simp only [updateTransactionStatusFn, if_neg hm] at hne
            exact absurd rfl hne
        · intro i h' hge
          have : i < txs.length := by
            simpa [updateTransactionStatus] using h'
          omega
      · rw [if_neg hg]
        refine ⟨fun _ i h h' _ => rfl, fun i h h' _ hne => absurd rfl hne, ?_⟩
        intro i h' hge
        omega
  | comment txId c =>
      have hap : applyTxOp txs (.comment txId c) = txs.map (addCommentFn txId c) := rfl
      rw [hap]
      refine ⟨?_, ?_, ?_⟩
      · intro _ i h h' _
        rw [get_map_tx _ _ _ h, addCommentFn_status]
      · intro i h h' _ hne
        rw [get_map_tx _ _ _ h, addCommentFn_status] at hne
        exact absurd rfl hne
      · intro i h' hge
        have : i < txs.length := by simpa using h'
        omega

/-- C5 witness: a status-update request against the APPROVED example credit
leaves its status APPROVED. -/
theorem status_terminal_witness :
    ((applyTxOp [exTxCredit500] (.updateStatus "tx2" .REJECTED)).get ⟨0, by decide⟩).status
      = ([exTxCredit500].get ⟨0, by decide⟩).status :=
  (status_terminal [exTxCredit500] (.updateStatus "tx2" .REJECTED) (by decide)).1
    (fun _ _ hed => by cases hed) 0 (by decide) (by decide) (Or.inl (by decide))

/-- `shareAccount` does not change the account ids. -/
lemma map_id_shareAccount (accs : List Account) (accountId userId : String) (role : MemberRole) :
    (shareAccount accs accountId userId role).map Account.id = accs.map Account.id := by
  unfold shareAccount
  rw [List.map_map]
  apply List.map_congr_left
  intro a _
  by_cases h : a.id = accountId <;> simp [h]

/-- `removeMember` does not change the account ids. -/
lemma map_id_removeMember (accs : List Account) (accountId userId : String) :
    (removeMember accs accountId userId).map Account.id = accs.map Account.id := by
  unfold removeMember
  rw [List.map_map]
  apply List.map_congr_left
  intro a _
  by_cases h : a.id = accountId <;> simp [h]

/-- A userId passing `shareGate` of an account whose invariant holds is not
the account's owner. -/
lemma shareGate_ne_owner {acc : Account} {userId : String} (hg : shareGate acc userId = true)
    (hown : acc.ownerId ∉ acc.members.map AccountMember.userId) : userId ≠ acc.ownerId := by
  unfold shareGate at hg
  rcases Bool.or_eq_true_iff.mp hg with h | h
  · obtain ⟨m, hm, hmu⟩ := List.any_eq_true.mp h
    rw [decide_eq_true_eq] at hmu
    intro heq
    exact hown (List.mem_map.mpr ⟨m, hm, by rw [hmu, heq]⟩)
  · exact of_decide_eq_true (Bool.and_eq_true_iff.mp h).1

/-- The membership invariant survives an upsert by a non-owner userId. -/
lemma upsertMember_inv {members : List AccountMember} {ownerId userId : String}
    (role : MemberRole)
    (hown : ownerId ∉ members.map AccountMember.userId)
    (hnd : (members.map AccountMember.userId).Nodup)
    (hneq : userId ≠ ownerId) :
    ownerId ∉ (upsertMember members userId role).map AccountMember.userId
    ∧ ((upsertMember members userId role).map AccountMember.userId).Nodup := by
  have hsub : ((members.filter fun m => decide (m.userId ≠ userId)).map
      AccountMember.userId).Sublist (members.map AccountMember.userId) :=
    (List.filter_sublist _).map _
  have hfilter_nd := hnd.sublist hsub
  have hu_not : userId ∉ (members.filter fun m => decide (m.userId ≠ userId)).map
      AccountMember.userId := by
    intro hmem
    rcases List.mem_map.mp hmem with ⟨m, hm, hmu⟩
    have hne := (List.mem_filter.mp hm).2
    rw [decide_eq_true_eq] at hne
    exact hne hmu
  constructor
  · simp only [upsertMember, List.map_append, List.mem_append]
    rintro (hmem | hmem)
    · exact hown (hsub.subset hmem)
    · rcases List.mem_singleton.mp hmem with rfl
      exact hneq rfl
  · simp only [upsertMember, List.map_append]
    rw [List.nodup_append]
    refine ⟨hfilter_nd, List.nodup_singleton _, ?_⟩
    intro x hx hx2
    rcases List.mem_singleton.mp hx2 with rfl
    exact hu_not hx

/-- `stateInv` survives `createAccount` with a fresh id. -/
lemma stateInv_createAccount {accs : List Account} (h : stateInv accs) {id : String}
    (hfresh : id ∉ accs.map Account.id) (name ownerId createdAt : String) :
    stateInv (createAccount accs id name ownerId createdAt) := by
  constructor
  · unfold createAccount
    rw [List.map_append, List.nodup_append]
    exact ⟨h.1, by simp, by simpa using hfresh⟩
  · intro a ha
    rcases List.mem_append.mp ha with ha | ha
    · exact h.2 a ha
    · rcases List.mem_singleton.mp ha with rfl
      exact ⟨by simp, by simp⟩

/-- `stateInv` survives a UI-triggered `shareAccount`. -/
lemma stateInv_share {accs : List Account} (h : stateInv accs)
    (accountId userId : String) (role : MemberRole) :
    stateInv (applyAccountOp accs (.share accountId userId role)) := by
  cases hfind : accs.find? (fun a => decide (a.id = accountId)) with
  | none => simpa [applyAccountOp, hfind] using h
  | some acc =>
      by_cases hgate : shareGate acc userId = true
      · have hres : applyAccountOp accs (.share accountId userId role)
            = shareAccount accs accountId userId role := by
          simp [applyAccountOp, hfind, hgate]
        rw [hres]
        have haccmem : acc ∈ accs := List.mem_of_find?_eq_some hfind
        have haccid : acc.id = accountId := by simpa using List.find?_some hfind
        have hneq : userId ≠ acc.ownerId := shareGate_ne_owner hgate (h.2 acc haccmem).1
        constructor
        · rw [map_id_shareAccount]
          exact h.1
        · intro a' ha'
          rcases List.mem_map.mp ha' with ⟨a, ha, rfl⟩
          by_cases hid : a.id = accountId
          · have haeq : a = acc :=
              List.inj_on_of_nodup_map h.1 ha haccmem (hid.trans haccid.symm)
            subst haeq
            rw [if_pos hid]
            obtain ⟨hown, hnd⟩ := h.2 a ha
            exact upsertMember_inv role hown hnd hneq
          · rw [if_neg hid]
            exact h.2 a ha
      · have hres : applyAccountOp accs (.share accountId userId role) = accs := by
          simp [applyAccountOp, hfind, hgate]
        rw [hres]
        exact h

/-- `stateInv` survives `removeMember`. -/
lemma stateInv_remove {accs : List Account} (h : stateInv accs) (accountId userId : String) :
    stateInv (removeMember accs accountId userId) := by
  constructor
  · rw [map_id_removeMember]
    exact h.1
  · intro a' ha'
    rcases List.mem_map.mp ha' with ⟨a, ha, rfl⟩
    obtain ⟨hown, hnd⟩ := h.2 a ha
    by_cases hid : a.id = accountId
    · rw [if_pos hid]
      have hsub : ((a.members.filter fun m => decide (m.userId ≠ userId)).map
          AccountMember.userId).Sublist (a.members.map AccountMember.userId) :=
        (List.filter_sublist _).map _
      exact ⟨fun hmem => hown (hsub.subset hmem), hnd.sublist hsub⟩
    · rw [if_neg hid]
      exact ⟨hown, hnd⟩

/-- `stateInv` is preserved along every reachable state. -/
lemma stateInv_reachable {s t : List Account} (h : stateInv s)
    (hr : ReachableAccounts s t) : stateInv t := by
  induction hr with
  | refl => exact h
  | create _ hfresh ih => exact stateInv_createAccount ih hfresh _ _ _
  | share _ ih => exact stateInv_share ih _ _ _
  | remove _ ih => exact stateInv_remove ih _ _

/-- C4: starting from any state satisfying the invariant, after any sequence
of user-triggered `createAccount`, `shareAccount` and `removeMember`
operations, no account lists its owner among its members and no account lists
a userId twice. -/
theorem members_invariant (s t : List Account) (hinv : stateInv s)
    (hreach : ReachableAccounts s t) :
    ∀ a ∈ t, a.ownerId ∉ a.members.map AccountMember.userId
      ∧ (a.members.map AccountMember.userId).Nodup :=
  fun a ha => (stateInv_reachable hinv hreach).2 a ha

/-- The account produced by creating "acc9" and then sharing it with "u2". -/
def exAccount9 : Account :=
  { id := "acc9", name := "Trip", ownerId := "u1",
    members := [{ userId := "u2", role := .EDITOR }], createdAt := "2024-02-01" }

/-- C4 witness: from the empty state, after a create followed by a share, the
resulting account keeps its owner out of the members list and lists "u2"
once. -/
theorem members_invariant_witness :
    exAccount9.ownerId ∉ exAccount9.members.map AccountMember.userId
    ∧ (exAccount9.members.map AccountMember.userId).Nodup :=
  members_invariant []
    (applyAccountOp (applyAccountOp [] (.create "acc9" "Trip" "u1" "2024-02-01"))
      (.share "acc9" "u2" .EDITOR))
    ⟨by decide, by simp⟩
    (ReachableAccounts.share (ReachableAccounts.create (ReachableAccounts.refl []) (by decide)))
    exAccount9 (by decide)

end ExpensePro
